import Mathlib

/-!
Verification development for the synthetic-legacy transformation engine
(`scripts/transform_engine.py`, `scripts/apply_transforms.py`).

The engine's text processing is embedded shallowly: file contents are lists
of characters, the file system is a total map from paths to contents, and
the single seeded `random.Random` stream is modelled by an abstract
deterministic pseudo-random state machine (a linear congruential step).
Every theorem below depends only on the determinism of that stream and on
`Rng.sample` returning `min k n` elements of its population, never on the
particular values drawn, except for closed witnesses that simply evaluate
the model at a fixed seed.

Python `set` iteration order (used by the engine via `list(set)` and by
direct iteration over sets) is not deterministic across independent
processes, because string hashing is randomized per process; it is modelled
by an explicit enumeration function `ord` applied to the canonical
(insertion-ordered) element list stored in the index.
-/

/-- File contents, symbol names and text fragments are lists of characters
(the tolerant read `errors='ignore'` makes contents plain text). -/
abbrev Str := List Char

/-- Python regex word character `\w` (ASCII model): letters, digits, `_`. -/
def isWordChar (c : Char) : Bool := c.isAlphanum || c = '_'

/-- Maximal runs of characters of equal word-character class.  A
word-boundary-delimited occurrence of an identifier (a nonempty all-word
string) is exactly a run equal to it. -/
def runs : List Char → List (List Char)
  | [] => []
  | c :: rest =>
    match runs rest with
    | [] => [[c]]
    | r :: rs =>
      match r with
      | [] => [c] :: rs
      | d :: ds => if isWordChar c = isWordChar d then (c :: d :: ds) :: rs else [c] :: (d :: ds) :: rs

/-- `re.sub(r'\b' + re.escape(old) + r'\b', new, content)` for an identifier
`old` consisting of word characters (every symbol handled by the engine is
extracted by `\w+` groups or as a parsed identifier): a word-boundary
occurrence of `old` is exactly a maximal word-character run equal to `old`,
and the substitution replaces each such run. -/
def subWB (old new : Str) (content : Str) : Str :=
  ((runs content).map (fun r => if r = old then new else r)).flatten

/-- Number of word-boundary occurrences of the identifier `sym` in `s`. -/
def wbCount (sym : Str) (s : Str) : Nat := (runs s).count sym

/-- `needle.isPrefixOf hay` as a Boolean on character lists. -/
def startsWithB : List Char → List Char → Bool
  | [], _ => true
  | _ :: _, [] => false
  | a :: as, b :: bs => a == b && startsWithB as bs

/-- Python's `needle in hay` substring test. -/
def containsSub (n : Str) : Str → Bool
  | [] => n.isEmpty
  | c :: rest => startsWithB n (c :: rest) || containsSub n rest

/-- Python's `hay.endswith(needle)`. -/
def endsWithB (n : Str) (h : Str) : Bool := startsWithB n.reverse h.reverse

/-- Python `str.replace(old, new)`: leftmost, non-overlapping, all
occurrences.  Fuel-driven scan; the initial fuel `s.length` is enough since
each step consumes at least one character (`old` is nonempty at all call
sites). -/
def strReplaceFuel (old new : Str) : Nat → Str → Str
  | 0, s => s
  | _ + 1, [] => []
  | fuel + 1, c :: rest =>
    if old ≠ [] ∧ startsWithB old (c :: rest) then
      new ++ strReplaceFuel old new fuel ((c :: rest).drop old.length)
    else
      c :: strReplaceFuel old new fuel rest

def strReplace (old new s : Str) : Str := strReplaceFuel old new s.length s

/-- The shared seeded random source (`random.Random(seed)`).  The Mersenne
Twister stream is abstracted by a linear congruential step; all proved
properties depend only on determinism and on the structural properties of
`Rng.sample` established below. -/
structure Rng where
  st : Nat
deriving DecidableEq

def rngStep (s : Nat) : Nat := (s * 1103515245 + 12345) % 4294967296

def rngNext (r : Rng) : Nat × Rng := (r.st, ⟨rngStep r.st⟩)

/-- A draw in `[0, n)` (for `n = 0` the result is unused by callers). -/
def randBelow (r : Rng) (n : Nat) : Nat × Rng :=
  let v := rngNext r
  (v.1 % n, v.2)

def sampleAux {α : Type} : Nat → Rng → List α → List α → List α × Rng
  | 0, r, _, acc => (acc.reverse, r)
  | _ + 1, r, [], acc => (acc.reverse, r)
  | k + 1, r, p :: ps, acc =>
    let d := randBelow r (p :: ps).length
    match (p :: ps)[d.1]? with
    | some x => sampleAux k d.2 ((p :: ps).eraseIdx d.1) (x :: acc)
    | none => (acc.reverse, d.2)

/-- `rng.sample(population, k)`: `min k population.length` elements drawn
without replacement (distinct positions) from the population. -/
def Rng.sample {α : Type} (r : Rng) (pop : List α) (k : Nat) : List α × Rng :=
  sampleAux k r pop []

/-- `rng.random()`: the uniform draw on `[0, 1)` is modelled as a uniform
draw below 1000 (thousandths); the comparison `random() < 0.7` becomes a
comparison with 700. -/
def randDraw (r : Rng) : Nat × Rng :=
  let v := rngNext r
  (v.1 % 1000, v.2)

/-- `rng.choice(xs)` for a nonempty concrete vocabulary. -/
def Rng.choice (r : Rng) (xs : List Str) : Str × Rng :=
  let d := randBelow r xs.length
  (xs.getD d.1 [], d.2)

/-- Python `int(q)` for the nonnegative rationals produced by the engine's
size computations (truncation toward zero coincides with the floor there).
Numeric literals (`0.6`, the configured fractions) are modelled as exact
rationals. -/
def pyInt (q : ℚ) : Nat := (⌊q⌋).toNat

/-! ## Data model -/

/-- Language tag assigned by `FileIndex._detect_language` from the file
extension. -/
inductive Lang where
  | go
  | python
  | cpp
  | c
  | java
  | javascript
  | typescript
  | unknown
deriving DecidableEq

/-- The file index consumed by the renamer and the drift simulator.
`langOf` models the `files` table's `language` field (total: both
transforms only look up paths recorded in the index, where the entry
exists by construction of `build_index`).  `symbols_to_files` models the
`symbols_to_files` dict: keys in insertion order, each value the
corresponding `set` of paths listed in some canonical order.  Iterating
the set (or `list(set)`) in a given process is modelled by applying that
process's enumeration function `ord` to the canonical list. -/
structure FileIndexM where
  langOf : String → Lang
  symbols_to_files : List (Str × List String)

/-- The on-disk tree: a total map from path to content. -/
abbrev FS := String → Str

def fsWrite (fs : FS) (p : String) (c : Str) : FS :=
  fun q => if q = p then c else fs q

/-- `symbols_to_files[symbol]` (the symbol is always present when the
transforms look it up; the default is never reached there). -/
def idxFiles (idx : FileIndexM) (sym : Str) : List String :=
  match idx.symbols_to_files.lookup sym with
  | some fs => fs
  | none => []

/-- Per-run environment of a transform: the index, the process's set
enumeration order, and which paths fail to write (`fails p = true` models
an I/O exception raised while rewriting `p`; the file keeps its previous
content and the per-file helper returns `False`). -/
structure Env where
  idx : FileIndexM
  ord : List String → List String
  fails : String → Bool

/-! ## File discovery (`FileIndex._find_source_files` / `build_index`)

`os.walk(root_dir)` is modelled by its output: the list of
`(root, filenames)` pairs in traversal order (the `dirs` component is not
used by the source).  `os.path.join(root, filename)` is modelled as
`root ++ "/" ++ filename`. -/

def extensionsList : List Str :=
  [".go".toList, ".py".toList, ".cpp".toList, ".h".toList, ".hpp".toList,
   ".c".toList, ".java".toList, ".js".toList, ".ts".toList]

def excludePatterns : List Str :=
  ["vendor/".toList, "node_modules/".toList, "third_party/".toList, ".git/".toList,
   "test/".toList, "tests/".toList, "_test.".toList, ".test.".toList, "generated/".toList]

def find_source_files (walk : List (String × List String)) : List String :=
  walk.flatMap (fun e =>
    if excludePatterns.any (fun pat => containsSub pat e.1.toList) then []
    else
      (e.2.filter (fun fn =>
        extensionsList.any (fun ext => endsWithB ext fn.toList)
          && !(excludePatterns.any (fun pat => containsSub pat fn.toList)))).map
        (fun fn => e.1 ++ "/" ++ fn))

/-- The paths recorded in the file index over a set of roots, each root
given by its walk output.  `_analyze_file` is total in the model (the read
is tolerant and the per-language extraction is pure), so every discovered
file is indexed. -/
def build_index_paths (walks : List (List (String × List String))) : List String :=
  walks.flatMap find_source_files

/-! ## Configuration loading (`LegacyTransformer._load_config`) -/

/-- The `transforms` knobs of `repos.yaml`. -/
structure ConfigData where
  file_rename_percentage : ℚ
  symbol_rename_percentage : ℚ
  api_drift_functions : Nat
  wrapper_layers : Nat
  duplication_directories : Nat
deriving DecidableEq

/-- State of `repos.yaml` when `_load_config` runs. -/
inductive ConfigFile where
  | missing
  | malformed
  | parsed (c : ConfigData)

def defaultConfig : ConfigData :=
  ⟨(8 : ℚ) / 100, (5 : ℚ) / 100, 10, 8, 2⟩

/-- `_load_config`: `open` on a missing file raises `FileNotFoundError`,
which is caught and answered with the hardcoded fallback; `yaml.safe_load`
on a malformed file raises `yaml.YAMLError`, which is *not* caught and
propagates (`Except.error`). -/
def load_config : ConfigFile → Except String ConfigData
  | .missing => .ok defaultConfig
  | .malformed => .error "yaml.YAMLError"
  | .parsed c => .ok c

/-! ## Regex scanners

The structural rewrite patterns of the engine are deterministic
maximal-munch scanners: every quantified class in them (`\s+`, `\s*`,
`[^)]+`, `[^)]*`, `[^{]*`, `[^}]*`, `[^\n]*`) excludes the character the
pattern requires next, so greedy matching never needs to backtrack.  A
matcher takes the character preceding the scan position (for `\b`) and the
remaining text, and returns the matched length. -/

/-- Python regex `\s` (ASCII model). -/
def isPyWs (c : Char) : Bool :=
  c = ' ' || c = '\t' || c = '\n' || c = '\r' || c = '\x0b' || c = '\x0c'

/-- `\b` between the previous character and a word character. -/
def boundaryBefore : Option Char → Bool
  | none => true
  | some c => !isWordChar c

/-- Consume a literal. -/
def dropLit : Str → Str → Option Str
  | [], s => some s
  | _ :: _, [] => none
  | a :: as, b :: bs => if a = b then dropLit as bs else none

/-- `\s*` (maximal). -/
def dropWs0 (s : Str) : Str := s.dropWhile isPyWs

/-- `\s+` (maximal, at least one). -/
def dropWs1 (s : Str) : Option Str :=
  match s with
  | [] => none
  | c :: rest => if isPyWs c then some (dropWs0 rest) else none

/-- `[^x]*` followed by the required `x`: consume up to and including the
first occurrence of `stop`. -/
def dropThrough (stop : Char) : Str → Option Str
  | [] => none
  | c :: rest => if c = stop then some rest else dropThrough stop rest

/-- `[^x]+` followed by the required `x` (at least one class character). -/
def dropThrough1 (stop : Char) : Str → Option Str
  | [] => none
  | c :: rest => if c = stop then none else dropThrough stop rest

/-- `re.sub` driver: scan left to right, replace each leftmost match,
continue after it; `\b` context is taken from the original text.  Fuel
`s.length` suffices: every step consumes at least one character. -/
def reSubFuel (m : Option Char → Str → Option Nat) (repl : Str → Str) :
    Nat → Option Char → Str → Str
  | 0, _, s => s
  | _ + 1, _, [] => []
  | fuel + 1, prev, c :: rest =>
    match m prev (c :: rest) with
    | some n =>
      if n = 0 then c :: reSubFuel m repl fuel (some c) rest
      else
        repl ((c :: rest).take n) ++
          reSubFuel m repl fuel ((c :: rest).take n).getLast? ((c :: rest).drop n)
    | none => c :: reSubFuel m repl fuel (some c) rest

def reSub (m : Option Char → Str → Option Nat) (repl : Str → Str) (s : Str) : Str :=
  reSubFuel m repl s.length none s

/-- `re.search` position: leftmost match as `(start, length)`. -/
def findFirstMatch (m : Str → Option Nat) : Str → Option (Nat × Nat)
  | [] => (m []).map (fun n => (0, n))
  | c :: rest =>
    match m (c :: rest) with
    | some n => some (0, n)
    | none => (findFirstMatch m rest).map (fun q => (q.1 + 1, q.2))

/-! ### The renamer's structural patterns (`SymbolRenamer`) -/

/-- `\bfunc\s+OLD\s*\(` (Go function definition). -/
def matchGoFunc (old : Str) (prev : Option Char) (s : Str) : Option Nat :=
  if !boundaryBefore prev then none else
  match dropLit "func".toList s with
  | none => none
  | some s1 =>
    match dropWs1 s1 with
    | none => none
    | some s2 =>
      match dropLit old s2 with
      | none => none
      | some s3 =>
        match dropLit ['('] (dropWs0 s3) with
        | none => none
        | some s4 => some (s.length - s4.length)

/-- `\bfunc\s+\([^)]+\)\s+OLD\s*\(` (Go method definition). -/
def matchGoMethod (old : Str) (prev : Option Char) (s : Str) : Option Nat :=
  if !boundaryBefore prev then none else
  match dropLit "func".toList s with
  | none => none
  | some s1 =>
    match dropWs1 s1 with
    | none => none
    | some s2 =>
      match dropLit ['('] s2 with
      | none => none
      | some s3 =>
        match dropThrough1 ')' s3 with
        | none => none
        | some s4 =>
          match dropWs1 s4 with
          | none => none
          | some s5 =>
            match dropLit old s5 with
            | none => none
            | some s6 =>
              match dropLit ['('] (dropWs0 s6) with
              | none => none
              | some s7 => some (s.length - s7.length)

/-- `\btype\s+OLD\s+` (Go type definition). -/
def matchGoType (old : Str) (prev : Option Char) (s : Str) : Option Nat :=
  if !boundaryBefore prev then none else
  match dropLit "type".toList s with
  | none => none
  | some s1 =>
    match dropWs1 s1 with
    | none => none
    | some s2 =>
      match dropLit old s2 with
      | none => none
      | some s3 =>
        match dropWs1 s3 with
        | none => none
        | some s4 => some (s.length - s4.length)

/-- `\bclass\s+OLD\s*[:(]` (Python class definition). -/
def matchPyClass (old : Str) (prev : Option Char) (s : Str) : Option Nat :=
  if !boundaryBefore prev then none else
  match dropLit "class".toList s with
  | none => none
  | some s1 =>
    match dropWs1 s1 with
    | none => none
    | some s2 =>
      match dropLit old s2 with
      | none => none
      | some s3 =>
        match dropWs0 s3 with
        | ':' :: s4 => some (s.length - s4.length)
        | '(' :: s4 => some (s.length - s4.length)
        | _ => none

/-- `\bdef\s+OLD\s*\(` (Python function definition). -/
def matchPyDef (old : Str) (prev : Option Char) (s : Str) : Option Nat :=
  if !boundaryBefore prev then none else
  match dropLit "def".toList s with
  | none => none
  | some s1 =>
    match dropWs1 s1 with
    | none => none
    | some s2 =>
      match dropLit old s2 with
      | none => none
      | some s3 =>
        match dropLit ['('] (dropWs0 s3) with
        | none => none
        | some s4 => some (s.length - s4.length)

/-- `SymbolRenamer._rename_go_symbol`: three structural passes, then the
blanket word-boundary substitution. -/
def rename_go_symbol (old new content : Str) : Str :=
  let c1 := reSub (matchGoFunc old) (fun _ => "func ".toList ++ new ++ ['(']) content
  let c2 := reSub (matchGoMethod old) (fun mt => strReplace old new mt) c1
  let c3 := reSub (matchGoType old) (fun _ => "type ".toList ++ new ++ [' ']) c2
  subWB old new c3

/-- `SymbolRenamer._rename_python_symbol`. -/
def rename_python_symbol (old new content : Str) : Str :=
  let c1 := reSub (matchPyClass old) (fun mt => strReplace old new mt) content
  let c2 := reSub (matchPyDef old) (fun _ => "def ".toList ++ new ++ ['(']) c1
  subWB old new c2

/-- The content rewrite of `SymbolRenamer._rename_in_file`: dispatch on the
indexed language (`cpp`/`c` use `_rename_cpp_symbol`, everything else the
fallback; both are the bare word-boundary substitution). -/
def renameContent (lang : Lang) (old new content : Str) : Str :=
  match lang with
  | .go => rename_go_symbol old new content
  | .python => rename_python_symbol old new content
  | .cpp => subWB old new content
  | .c => subWB old new content
  | _ => subWB old new content

/-! ## Symbol renamer (`SymbolRenamer.rename_symbols`) -/

def sfxVocab : List Str :=
  ["Renamed".toList, "Legacy".toList, "V2".toList, "Updated".toList,
   "New".toList, "Modified".toList]

def pfxVocab : List Str :=
  ["Old".toList, "Legacy".toList, "Compat".toList, "Wrapper".toList]

/-- `SymbolRenamer._generate_new_name`: one `random()` draw (compared with
`0.7`, i.e. 700 thousandths), then one `choice` draw from the
corresponding vocabulary. -/
def generate_new_name (r : Rng) (original : Str) : Str × Rng :=
  let f := randDraw r
  if f.1 < 700 then
    let ch := Rng.choice f.2 sfxVocab
    (original ++ '_' :: ch.1, ch.2)
  else
    let ch := Rng.choice f.2 pfxVocab
    (ch.1 ++ '_' :: original, ch.2)

/-- `SymbolRenamer._rename_in_file`: read, rewrite, write.  Any exception
(modelled: the write fails) is caught, the file keeps its previous content
and the helper returns `False`; nothing is recorded in the error list. -/
def rename_in_file (env : Env) (p : String) (old new : Str) (fs : FS) : FS × Bool :=
  let c' := renameContent (env.idx.langOf p) old new (fs p)
  if env.fails p then (fs, false) else (fsWrite fs p c', true)

/-- The `for file_path in affected_files` loop: rewrite each file of the
symbol, counting successful rewrites into `files_changed`. -/
def renameFilesFold (env : Env) (old new : Str) (ps : List String) (fs : FS) (fc : Nat) :
    FS × Nat :=
  ps.foldl (fun acc p =>
    let r := rename_in_file env p old new acc.1
    (r.1, acc.2 + if r.2 then 1 else 0)) (fs, fc)

structure RenSt where
  fs : FS
  rng : Rng
  files_changed : Nat
  rename_map : List (Str × Str)

/-- One iteration of the `for symbol in symbols_to_rename` loop. -/
def renameStep (env : Env) (st : RenSt) (sym : Str) : RenSt :=
  let g := generate_new_name st.rng sym
  let res := renameFilesFold env sym g.1 (env.ord (idxFiles env.idx sym)) st.fs st.files_changed
  ⟨res.1, g.2, res.2, st.rename_map ++ [(sym, g.1)]⟩

/-- The sampling prologue of `rename_symbols`:
`symbol_count = max(1, int(len(all_symbols) * percentage))`, then
`rng.sample(all_symbols, min(symbol_count, len(all_symbols)))`. -/
def renameSelection (idx : FileIndexM) (percentage : ℚ) (rng : Rng) : List Str × Rng :=
  let all_symbols := idx.symbols_to_files.map (fun e => e.1)
  let symbol_count := max 1 (pyInt (all_symbols.length * percentage))
  Rng.sample rng all_symbols (min symbol_count all_symbols.length)

structure RenResult where
  success : Bool
  files_changed : Nat
  errors : List Str
  rename_map : List (Str × Str)
  fs : FS
  rng : Rng

/-- `SymbolRenamer.rename_symbols`.  The only site appending to `errors`
is the per-symbol `except` clause, which no step of the loop can reach
(every per-file exception is already absorbed inside `_rename_in_file`),
so the error list is empty and `success = (len(errors) == 0)` is true. -/
def rename_symbols (env : Env) (percentage : ℚ) (fs : FS) (rng : Rng) : RenResult :=
  let sel := renameSelection env.idx percentage rng
  let final := sel.1.foldl (renameStep env) ⟨fs, sel.2, 0, []⟩
  ⟨true, final.files_changed, [], final.rename_map, final.fs, final.rng⟩

/-! ## API drift simulator (`APIDriftSimulator.apply_api_drift`) -/

/-- `(func\s+OLD\s*\([^)]*\)\s*[^{]*\{[^}]*\})` — the Go structural match
for a definition span (no `\b`, `re.DOTALL` only affects `.` which the
pattern does not use). -/
def goV2MatchAt (old : Str) (s : Str) : Option Nat :=
  match dropLit "func".toList s with
  | none => none
  | some s1 =>
    match dropWs1 s1 with
    | none => none
    | some s2 =>
      match dropLit old s2 with
      | none => none
      | some s3 =>
        match dropLit ['('] (dropWs0 s3) with
        | none => none
        | some s4 =>
          match dropThrough ')' s4 with
          | none => none
          | some s5 =>
            match dropThrough '\x7b' (dropWs0 s5) with
            | none => none
            | some s6 =>
              match dropThrough '\x7d' s6 with
              | none => none
              | some s7 => some (s.length - s7.length)

/-- `APIDriftSimulator._add_go_v2_function`: duplicate the matched span
after itself, renaming only the duplicate's `func OLD` token (plain
`str.replace`); no match leaves the content unchanged. -/
def add_go_v2_function (old new content : Str) : Str :=
  match findFirstMatch (goV2MatchAt old) content with
  | none => content
  | some q =>
    let original_func := (content.drop q.1).take q.2
    let v2_func := strReplace ("func ".toList ++ old) ("func ".toList ++ new) original_func
    strReplace original_func (original_func ++ '\n' :: '\n' :: v2_func) content

/-- The greedy tail `(?:\n(?:    [^\n]*|\n)*)*` of the Python definition
pattern: after the header line, consume every following newline, blank line
and four-space-indented line (maximal munch; the alternatives exclude each
other's first character, so greediness is deterministic).  Returns the
number of characters consumed; fuel bounds the loop. -/
def pyBodyExt : Nat → Str → Nat
  | 0, _ => 0
  | fuel + 1, s =>
    match s with
    | '\n' :: rest => 1 + pyBodyExt fuel rest
    | ' ' :: ' ' :: ' ' :: ' ' :: rest =>
      let line := rest.takeWhile (fun c => c ≠ '\n')
      4 + line.length + pyBodyExt fuel (rest.drop line.length)
    | _ => 0

/-- `(def\s+OLD\s*\([^)]*\):[^\n]*(?:\n(?:    [^\n]*|\n)*)*)` — the Python
structural match for a definition span. -/
def pyV2MatchAt (old : Str) (s : Str) : Option Nat :=
  match dropLit "def".toList s with
  | none => none
  | some s1 =>
    match dropWs1 s1 with
    | none => none
    | some s2 =>
      match dropLit old s2 with
      | none => none
      | some s3 =>
        match dropLit ['('] (dropWs0 s3) with
        | none => none
        | some s4 =>
          match dropThrough ')' s4 with
          | none => none
          | some s5 =>
            match dropLit [':'] s5 with
            | none => none
            | some s6 =>
              let hdr := s6.takeWhile (fun c => c ≠ '\n')
              let s7 := s6.drop hdr.length
              some (s.length - s7.length + pyBodyExt s7.length s7)

/-- `APIDriftSimulator._add_python_v2_function`. -/
def add_python_v2_function (old new content : Str) : Str :=
  match findFirstMatch (pyV2MatchAt old) content with
  | none => content
  | some q =>
    let original_func := (content.drop q.1).take q.2
    let v2_func := strReplace ("def ".toList ++ old) ("def ".toList ++ new) original_func
    strReplace original_func (original_func ++ '\n' :: '\n' :: v2_func) content

/-- The content computed by `_create_v2_definition` before it writes the
file back: only Go and Python have structural matchers; every other
language leaves the content untouched (and the file is still rewritten
with identical bytes). -/
def createV2Content (lang : Lang) (old new content : Str) : Str :=
  match lang with
  | .go => add_go_v2_function old new content
  | .python => add_python_v2_function old new content
  | _ => content

/-- `APIDriftSimulator._create_v2_definition`: read, compute, write; the
write happens whether or not the structural match changed anything, and
the helper returns `True` unless the write raises. -/
def create_v2_definition (env : Env) (p : String) (old new : Str) (fs : FS) : FS × Bool :=
  let c' := createV2Content (env.idx.langOf p) old new (fs p)
  if env.fails p then (fs, false) else (fsWrite fs p c', true)

/-- `APIDriftSimulator._migrate_callsite`: word-boundary rewrite of every
occurrence; the file is written (and `True` returned) only when the
content actually changed. -/
def migrate_callsite (env : Env) (p : String) (old new : Str) (fs : FS) : FS × Bool :=
  let content := fs p
  let nc := subWB old new content
  if nc ≠ content then
    if env.fails p then (fs, false) else (fsWrite fs p nc, true)
  else (fs, false)

/-- Ledger entry of `api_migrations[symbol]`. -/
structure MigRecord where
  v2_symbol : Str
  definition_file : String
  total_callsites : Nat
  migrated_callsites : Nat
  migrated_files : List String
deriving DecidableEq

structure DriftSt where
  fs : FS
  rng : Rng
  files_changed : Nat
  api_migrations : List (Str × MigRecord)

/-- The `for file_path in files_to_migrate` loop. -/
def migrateFold (env : Env) (old new : Str) (ps : List String) (fs : FS) (fc : Nat) :
    FS × Nat :=
  ps.foldl (fun acc p =>
    let r := migrate_callsite env p old new acc.1
    (r.1, acc.2 + if r.2 then 1 else 0)) (fs, fc)

/-- One iteration of the `for symbol in selected_symbols` loop.
`migrated_count = int(len(usage_files) * 0.6)` with the literal `0.6`
taken as the exact rational `3/5`, so the count is `3·U / 5` in natural
division; the ledger entry is recorded unconditionally at the end of the
iteration. -/
def driftStep (env : Env) (st : DriftSt) (sym : Str) : DriftSt :=
  let v2 := sym ++ ['V', '2']
  match env.ord (idxFiles env.idx sym) with
  | [] => st
  | definition_file :: usage_files =>
    let cr := create_v2_definition env definition_file sym v2 st.fs
    let fc1 := st.files_changed + (if cr.2 then 1 else 0)
    let migrated_count := usage_files.length * 3 / 5
    let smp := Rng.sample st.rng usage_files (min migrated_count usage_files.length)
    let mg := migrateFold env sym v2 smp.1 cr.1 fc1
    ⟨mg.1, smp.2, mg.2,
     st.api_migrations ++ [(sym, ⟨v2, definition_file, usage_files.length, smp.1.length, smp.1⟩)]⟩

/-- First char uppercase, `s[0].isupper()` guarded by `len(s) > 3`. -/
def firstUpper : Str → Bool
  | [] => false
  | c :: _ => c.isUpper

/-- The drift candidate pool: symbol-index keys that look like public
APIs. -/
def driftPool (idx : FileIndexM) : List Str :=
  (idx.symbols_to_files.map (fun e => e.1)).filter
    (fun s => decide (3 < s.length) && firstUpper s)

/-- The sampling prologue of `apply_api_drift`. -/
def driftSelection (idx : FileIndexM) (functions_per_repo : Nat) (rng : Rng) :
    List Str × Rng :=
  Rng.sample rng (driftPool idx) (min functions_per_repo (driftPool idx).length)

structure DriftResult where
  success : Bool
  files_changed : Nat
  errors : List Str
  api_migrations : List (Str × MigRecord)
  fs : FS
  rng : Rng

/-- `APIDriftSimulator.apply_api_drift`.  As in the renamer, the only
error-appending site is the per-symbol `except`, unreachable in the model
(all per-file exceptions are absorbed by the helpers), so the error list
is empty and `success` is true. -/
def apply_api_drift (env : Env) (functions_per_repo : Nat) (fs : FS) (rng : Rng) :
    DriftResult :=
  let sel := driftSelection env.idx functions_per_repo rng
  let final := sel.1.foldl (driftStep env) ⟨fs, sel.2, 0, []⟩
  ⟨true, final.files_changed, [], final.api_migrations, final.fs, final.rng⟩

/-! ## Properties of the run decomposition and `subWB` -/

theorem runs_flatten (s : List Char) : (runs s).flatten = s := by
  induction s with
  | nil => rfl
  | cons c rest ih =>
    simp only [runs]
    cases h : runs rest with
    | nil =>
      rw [h] at ih
      simp at ih
      simp [ih]
    | cons r rs =>
      rw [h] at ih
      cases r with
      | nil =>
        simp at ih ⊢
        exact ih
      | cons d ds =>
        by_cases hc : isWordChar c = isWordChar d
        · simp only [hc, if_true, List.flatten_cons] at ih ⊢
          simp at ih ⊢
          exact ih
        · simp only [hc, if_false, List.flatten_cons] at ih ⊢
          simp at ih ⊢
          exact ih

/-- The word-character class of a run. -/
def runClass (r : Str) : Bool := isWordChar r.headI

/-- A nonempty, class-uniform fragment. -/
def Chunk (r : Str) : Prop := r ≠ [] ∧ ∀ c ∈ r, isWordChar c = runClass r

/-- The invariant of a run decomposition: chunks with alternating
classes. -/
def GoodRuns (L : List Str) : Prop :=
  (∀ r ∈ L, Chunk r) ∧ L.Chain' (fun a b => runClass a ≠ runClass b)

theorem runs_cons_shape (c : Char) (rest : Str) :
    ∃ r' rs, runs (c :: rest) = (c :: r') :: rs := by
  simp only [runs]
  cases runs rest with
  | nil => exact ⟨[], [], rfl⟩
  | cons r rs =>
    cases r with
    | nil => exact ⟨[], rs, rfl⟩
    | cons d ds =>
      by_cases hc : isWordChar c = isWordChar d
      · exact ⟨d :: ds, rs, by simp [hc]⟩
      · exact ⟨[], (d :: ds) :: rs, by simp [hc]⟩

theorem runs_good (s : Str) : GoodRuns (runs s) := by
  induction s with
  | nil => exact ⟨fun r hr => absurd hr (List.not_mem_nil r), List.chain'_nil⟩
  | cons c rest ih =>
    simp only [runs]
    cases h : runs rest with
    | nil =>
      refine ⟨fun r hr => ?_, ?_⟩
      · rcases List.mem_singleton.mp hr with rfl
        exact ⟨List.cons_ne_nil _ _, by intro x hx; rcases List.mem_singleton.mp hx with rfl; rfl⟩
      · exact List.chain'_singleton _
    | cons r rs =>
      rw [h] at ih
      obtain ⟨hchunks, hchain⟩ := ih
      cases r with
      | nil => exact absurd (hchunks [] (List.mem_cons_self _ _)).1 (by simp)
      | cons d ds =>
        have hdchunk := hchunks (d :: ds) (List.mem_cons_self _ _)
        by_cases hc : isWordChar c = isWordChar d
        · simp only [hc, if_true]
          refine ⟨fun r hr => ?_, ?_⟩
          · rcases List.mem_cons.mp hr with rfl | hr
            · refine ⟨List.cons_ne_nil _ _, ?_⟩
              intro x hx
              have hcls : runClass (c :: d :: ds) = isWordChar c := rfl
              rcases List.mem_cons.mp hx with rfl | hx
              · exact hcls.symm
              · have := hdchunk.2 x hx
                have hdc : runClass (d :: ds) = isWordChar d := rfl
                rw [hdc] at this
                rw [hcls, this, hc]
            · exact hchunks r (List.mem_cons_of_mem _ hr)
          · have hsame : runClass (c :: d :: ds) = runClass (d :: ds) := by
              simp only [runClass, List.headI]
              exact hc
            cases rs with
            | nil => exact List.chain'_singleton _
            | cons r2 rs2 =>
              have h12 := (List.chain'_cons.mp hchain).1
              have htail := (List.chain'_cons.mp hchain).2
              exact List.chain'_cons.mpr ⟨by rw [hsame]; exact h12, htail⟩
        · simp only [hc, if_false]
          refine ⟨fun r hr => ?_, ?_⟩
          · rcases List.mem_cons.mp hr with rfl | hr
            · exact ⟨List.cons_ne_nil _ _, by
                intro x hx
                rcases List.mem_singleton.mp hx with rfl
                rfl⟩
            · exact hchunks r hr
          · refine List.chain'_cons.mpr ⟨?_, hchain⟩
            have h1 : runClass [c] = isWordChar c := rfl
            have h2 : runClass (d :: ds) = isWordChar d := rfl
            rw [h1, h2]
            exact hc

theorem runs_eq_nil_iff (s : Str) : runs s = [] ↔ s = [] := by
  constructor
  · intro h
    have := runs_flatten s
    rw [h] at this
    simpa using this.symm
  · intro h
    subst h
    rfl

theorem runs_cons_eq (c : Char) (rest : Str) :
    runs (c :: rest) =
      match runs rest with
      | [] => [[c]]
      | r :: rs =>
        match r with
        | [] => [c] :: rs
        | d :: ds =>
          if isWordChar c = isWordChar d then (c :: d :: ds) :: rs
          else [c] :: (d :: ds) :: rs := rfl

theorem runs_append_chunk (r t : Str) (κ : Bool) (hne : r ≠ [])
    (hun : ∀ c ∈ r, isWordChar c = κ)
    (ht : ∀ d ds, t = d :: ds → isWordChar d ≠ κ) :
    runs (r ++ t) = r :: runs t := by
  induction r with
  | nil => exact absurd rfl hne
  | cons a r' ih =>
    cases r' with
    | nil =>
      cases t with
      | nil => rfl
      | cons d ds =>
        obtain ⟨r1, rs1, hshape⟩ := runs_cons_shape d ds
        have hda : isWordChar a = κ := hun a (List.mem_singleton.mpr rfl)
        have hdd : isWordChar d ≠ κ := ht d ds rfl
        have hne2 : ¬ isWordChar a = isWordChar d := by
          intro hcontra
          exact hdd (hcontra ▸ hda)
        show runs (a :: d :: ds) = [a] :: runs (d :: ds)
        rw [runs_cons_eq a (d :: ds), hshape]
        simp [hne2]
    | cons b r'' =>
      have hr'' : runs (b :: (r'' ++ t)) = (b :: r'') :: runs t := by
        have := ih (List.cons_ne_nil _ _) (fun c hc => hun c (List.mem_cons_of_mem _ hc))
        simpa using this
      have hab : isWordChar a = isWordChar b := by
        rw [hun a (List.mem_cons_self _ _), hun b (List.mem_cons_of_mem _ (List.mem_cons_self _ _))]
      show runs (a :: (b :: r'' ++ t)) = (a :: b :: r'') :: runs t
      rw [List.cons_append, runs_cons_eq a (b :: (r'' ++ t)), hr'']
      simp [hab]

theorem runs_flatten_good (L : List Str) (hL : GoodRuns L) : runs L.flatten = L := by
  induction L with
  | nil => rfl
  | cons r L' ih =>
    obtain ⟨hchunks, hchain⟩ := hL
    have hrchunk := hchunks r (List.mem_cons_self _ _)
    have htail : GoodRuns L' :=
      ⟨fun x hx => hchunks x (List.mem_cons_of_mem _ hx), hchain.tail⟩
    have hstep : runs (r ++ L'.flatten) = r :: runs L'.flatten := by
      refine runs_append_chunk r L'.flatten (runClass r) hrchunk.1 hrchunk.2 ?_
      intro d ds hd
      cases L' with
      | nil => simp at hd
      | cons r2 L'' =>
        have hr2chunk := hchunks r2 (List.mem_cons_of_mem _ (List.mem_cons_self _ _))
        have hd2 : isWordChar d = runClass r2 := by
          have : d ∈ r2 := by
            cases r2 with
            | nil => exact absurd rfl hr2chunk.1
            | cons e r2' =>
              have : L''.flatten = L''.flatten := rfl
              simp only [List.flatten_cons, List.cons_append] at hd
              injection hd with h1 _
              subst h1
              exact List.mem_cons_self _ _
          exact hr2chunk.2 d this
        have hne2 : runClass r ≠ runClass r2 := (List.chain'_cons.mp hchain).1
        rw [hd2]
        exact fun hcontra => hne2 hcontra.symm
    simp only [List.flatten_cons]
    rw [hstep, ih htail]

theorem goodRuns_map_subst (L : List Str) (old new : Str)
    (hL : GoodRuns L)
    (hw : old ≠ [] ∧ ∀ c ∈ old, isWordChar c = true)
    (hnw : new ≠ [] ∧ ∀ c ∈ new, isWordChar c = true) :
    GoodRuns (L.map (fun r => if r = old then new else r)) := by
  obtain ⟨hchunks, hchain⟩ := hL
  have holdcls : runClass old = true := by
    cases old with
    | nil => exact absurd rfl hw.1
    | cons c cs => exact hw.2 c (List.mem_cons_self _ _)
  have hnewcls : runClass new = true := by
    cases new with
    | nil => exact absurd rfl hnw.1
    | cons c cs => exact hnw.2 c (List.mem_cons_self _ _)
  have hcls : ∀ r, runClass (if r = old then new else r) = runClass r := by
    intro r
    by_cases h : r = old
    · subst h
      simp [hnewcls, holdcls]
    · simp [h]
  constructor
  · intro r' hr'
    obtain ⟨r, hr, rfl⟩ := List.mem_map.mp hr'
    by_cases h : r = old
    · rw [if_pos h]
      refine ⟨hnw.1, fun c hc => ?_⟩
      rw [hnw.2 c hc, hnewcls]
    · rw [if_neg h]
      exact hchunks r hr
  · rw [List.chain'_map]
    refine hchain.imp ?_
    intro a b hab
    rw [hcls a, hcls b]
    exact hab

theorem runs_subWB (old new s : Str)
    (hw : old ≠ [] ∧ ∀ c ∈ old, isWordChar c = true)
    (hnw : new ≠ [] ∧ ∀ c ∈ new, isWordChar c = true) :
    runs (subWB old new s) = (runs s).map (fun r => if r = old then new else r) :=
  runs_flatten_good _ (goodRuns_map_subst _ old new (runs_good s) hw hnw)

/-- After the substitution no word-boundary occurrence of `old` remains. -/
theorem wbCount_subWB_self (old new s : Str)
    (hw : old ≠ [] ∧ ∀ c ∈ old, isWordChar c = true)
    (hnw : new ≠ [] ∧ ∀ c ∈ new, isWordChar c = true)
    (hne : new ≠ old) :
    wbCount old (subWB old new s) = 0 := by
  rw [wbCount, runs_subWB old new s hw hnw]
  rw [List.count_eq_zero]
  intro hmem
  obtain ⟨r, _, hr⟩ := List.mem_map.mp hmem
  by_cases h : r = old
  · rw [if_pos h] at hr
    exact hne hr
  · rw [if_neg h] at hr
    exact h hr

theorem count_map_subst_ge (L : List Str) (old new : Str) :
    L.count old ≤ (L.map (fun r => if r = old then new else r)).count new := by
  induction L with
  | nil => simp
  | cons r L' ih =>
    by_cases h : r = old
    · simp only [List.map_cons, if_pos h, List.count_cons, h]
      simp only [beq_self_eq_true, if_true]
      omega
    · simp only [List.map_cons, if_neg h, List.count_cons]
      have h1 : (r == old) = false := by simp [h]
      rw [h1]
      simp only [Bool.false_eq_true, if_false, Nat.add_zero]
      by_cases h2 : r = new
      · rw [h2, beq_self_eq_true]
        simp only [if_true]
        omega
      · have h3 : (r == new) = false := by simp [h2]
        rw [h3]
        simp only [Bool.false_eq_true, if_false, Nat.add_zero]
        exact ih

/-- The substitution leaves at least as many word-boundary occurrences of
`new` as there were of `old`. -/
theorem wbCount_subWB_new (old new s : Str)
    (hw : old ≠ [] ∧ ∀ c ∈ old, isWordChar c = true)
    (hnw : new ≠ [] ∧ ∀ c ∈ new, isWordChar c = true) :
    wbCount old s ≤ wbCount new (subWB old new s) := by
  rw [wbCount, wbCount, runs_subWB old new s hw hnw]
  exact count_map_subst_ge (runs s) old new

/-- With no word-boundary occurrence of `old`, the substitution is the
identity. -/
theorem subWB_eq_of_wbCount_zero (old new s : Str) (h : wbCount old s = 0) :
    subWB old new s = s := by
  rw [subWB]
  have : ∀ r ∈ runs s, (if r = old then new else r) = r := by
    intro r hr
    rw [if_neg]
    intro hcontra
    subst hcontra
    rw [wbCount, List.count_eq_zero] at h
    exact h hr
  rw [List.map_congr_left this, List.map_id']
  exact runs_flatten s

/-! ## Properties of `Rng.sample` -/

theorem sampleAux_length {α : Type} :
    ∀ (k : Nat) (r : Rng) (pop acc : List α),
      (sampleAux k r pop acc).1.length = acc.length + min k pop.length := by
  intro k
  induction k with
  | zero => intro r pop acc; simp [sampleAux]
  | succ k ih =>
    intro r pop acc
    cases pop with
    | nil => simp [sampleAux]
    | cons p ps =>
      have hlt : (randBelow r (p :: ps).length).1 < (p :: ps).length := by
        simp only [randBelow, rngNext]
        exact Nat.mod_lt _ (by simp)
      simp only [sampleAux, List.getElem?_eq_getElem hlt]
      rw [ih]
      have hlen : ((p :: ps).eraseIdx (randBelow r (p :: ps).length).1).length = ps.length := by
        have h1 := List.length_eraseIdx_add_one hlt
        have h2 : (p :: ps : List α).length = ps.length + 1 := List.length_cons _ _
        omega
      rw [hlen]
      simp only [List.length_cons]
      omega

theorem sample_length {α : Type} (r : Rng) (pop : List α) (k : Nat) :
    (Rng.sample r pop k).1.length = min k pop.length := by
  rw [Rng.sample, sampleAux_length]
  simp

theorem sampleAux_subset {α : Type} :
    ∀ (k : Nat) (r : Rng) (pop acc : List α) (x : α),
      x ∈ (sampleAux k r pop acc).1 → x ∈ acc ∨ x ∈ pop := by
  intro k
  induction k with
  | zero =>
    intro r pop acc x hx
    simp [sampleAux] at hx
    exact Or.inl hx
  | succ k ih =>
    intro r pop acc x hx
    cases pop with
    | nil =>
      simp [sampleAux] at hx
      exact Or.inl hx
    | cons p ps =>
      have hlt : (randBelow r (p :: ps).length).1 < (p :: ps).length := by
        simp only [randBelow, rngNext]
        exact Nat.mod_lt _ (by simp)
      simp only [sampleAux, List.getElem?_eq_getElem hlt] at hx
      rcases ih _ _ _ x hx with hacc | hpop
      · rcases List.mem_cons.mp hacc with rfl | hacc
        · exact Or.inr (List.getElem_mem hlt)
        · exact Or.inl hacc
      · exact Or.inr ((List.eraseIdx_sublist _ _).subset hpop)

theorem sample_subset {α : Type} (r : Rng) (pop : List α) (k : Nat) (x : α)
    (hx : x ∈ (Rng.sample r pop k).1) : x ∈ pop := by
  rcases sampleAux_subset k r pop [] x hx with h | h
  · simp at h
  · exact h

/-! ## Properties of the per-file loops -/

theorem renameFilesFold_count (env : Env) (old new : Str) (ps : List String) :
    ∀ (fs : FS) (fc : Nat),
      (renameFilesFold env old new ps fs fc).2 =
        fc + ps.countP (fun p => !env.fails p) := by
  induction ps with
  | nil => intro fs fc; rfl
  | cons p ps' ih =>
    intro fs fc
    show (renameFilesFold env old new ps' (rename_in_file env p old new fs).1
        (fc + if (rename_in_file env p old new fs).2 then 1 else 0)).2 = _
    rw [ih]
    rw [List.countP_cons]
    by_cases h : env.fails p
    · simp [rename_in_file, h]
    · simp [rename_in_file, h]
      omega

theorem migrate_callsite_frame (env : Env) (p : String) (old new : Str) (fs : FS)
    (q : String) (hq : q ≠ p) :
    (migrate_callsite env p old new fs).1 q = fs q := by
  simp only [migrate_callsite]
  split
  · split
    · rfl
    · simp [fsWrite, hq]
  · rfl

theorem migrateFold_frame (env : Env) (old new : Str) (ps : List String) :
    ∀ (fs : FS) (fc : Nat) (q : String), q ∉ ps →
      (migrateFold env old new ps fs fc).1 q = fs q := by
  induction ps with
  | nil => intro fs fc q _; rfl
  | cons p ps' ih =>
    intro fs fc q hq
    show (migrateFold env old new ps' (migrate_callsite env p old new fs).1
        (fc + if (migrate_callsite env p old new fs).2 then 1 else 0)).1 q = fs q
    rw [ih _ _ _ (fun h => hq (List.mem_cons_of_mem _ h))]
    exact migrate_callsite_frame env p old new fs q (fun h => hq (h ▸ List.mem_cons_self _ _))

theorem migrate_callsite_self (env : Env) (p : String) (old new : Str) (fs : FS)
    (hf : env.fails p = false) :
    (migrate_callsite env p old new fs).1 p = subWB old new (fs p) := by
  simp only [migrate_callsite]
  split
  · rw [hf]
    simp [fsWrite]
  · next h =>
    have : subWB old new (fs p) = fs p := by
      by_contra hc
      exact h hc
    rw [this]

theorem migrateFold_mem (env : Env) (old new : Str)
    (hf : ∀ p, env.fails p = false) (ps : List String) :
    ∀ (fs : FS) (fc : Nat) (p : String), ps.Nodup → p ∈ ps →
      (migrateFold env old new ps fs fc).1 p = subWB old new (fs p) := by
  induction ps with
  | nil => intro fs fc p _ hp; exact absurd hp (List.not_mem_nil p)
  | cons q ps' ih =>
    intro fs fc p hnd hp
    have hq : q ∉ ps' := (List.nodup_cons.mp hnd).1
    show (migrateFold env old new ps' (migrate_callsite env q old new fs).1
        (fc + if (migrate_callsite env q old new fs).2 then 1 else 0)).1 p = _
    rcases List.mem_cons.mp hp with rfl | hp'
    · rw [migrateFold_frame env old new ps' _ _ p hq]
      exact migrate_callsite_self env p old new fs (hf p)
    · have hpq : p ≠ q := fun h => hq (h ▸ hp')
      rw [ih _ _ p (List.nodup_cons.mp hnd).2 hp']
      rw [migrate_callsite_frame env q old new fs p hpq]

theorem migrateFold_count (env : Env) (old new : Str)
    (hf : ∀ p, env.fails p = false) (ps : List String) :
    ∀ (fs : FS) (fc : Nat), ps.Nodup →
      (migrateFold env old new ps fs fc).2 =
        fc + ps.countP (fun p => decide (subWB old new (fs p) ≠ fs p)) := by
  induction ps with
  | nil => intro fs fc _; rfl
  | cons q ps' ih =>
    intro fs fc hnd
    have hq : q ∉ ps' := (List.nodup_cons.mp hnd).1
    show (migrateFold env old new ps' (migrate_callsite env q old new fs).1
        (fc + if (migrate_callsite env q old new fs).2 then 1 else 0)).2 = _
    rw [ih _ _ (List.nodup_cons.mp hnd).2]
    have hagree : ∀ p ∈ ps',
        (decide (subWB old new ((migrate_callsite env q old new fs).1 p) ≠
          (migrate_callsite env q old new fs).1 p) = true) ↔
        (decide (subWB old new (fs p) ≠ fs p) = true) := by
      intro p hp
      have hpq : p ≠ q := fun h => hq (h ▸ hp)
      rw [migrate_callsite_frame env q old new fs p hpq]
    rw [List.countP_congr hagree]
    rw [List.countP_cons]
    have hbool : (migrate_callsite env q old new fs).2 =
        decide (subWB old new (fs q) ≠ fs q) := by
      simp only [migrate_callsite]
      split
      · next h => simp [hf q, h]
      · next h =>
        have : subWB old new (fs q) = fs q := by
          by_contra hc
          exact h hc
        simp [this]
    rw [hbool]
    by_cases h : subWB old new (fs q) ≠ fs q
    · simp [h]
      omega
    · simp [h]

theorem renameFold_spec (env : Env) (syms : List Str) :
    ∀ (st : RenSt),
      ((syms.foldl (renameStep env) st).rename_map.map (fun e => e.1) =
          st.rename_map.map (fun e => e.1) ++ syms) ∧
      (syms.foldl (renameStep env) st).files_changed =
          st.files_changed + (syms.map (fun s =>
            (env.ord (idxFiles env.idx s)).countP (fun p => !env.fails p))).sum := by
  induction syms with
  | nil => intro st; simp
  | cons s syms' ih =>
    intro st
    simp only [List.foldl_cons]
    obtain ⟨h1, h2⟩ := ih (renameStep env st s)
    have hmap : (renameStep env st s).rename_map =
        st.rename_map ++ [(s, (generate_new_name st.rng s).1)] := rfl
    have hfc : (renameStep env st s).files_changed =
        st.files_changed + (env.ord (idxFiles env.idx s)).countP (fun p => !env.fails p) := by
      show (renameFilesFold env s (generate_new_name st.rng s).1
          (env.ord (idxFiles env.idx s)) st.fs st.files_changed).2 = _
      exact renameFilesFold_count env s (generate_new_name st.rng s).1
        (env.ord (idxFiles env.idx s)) st.fs st.files_changed
    constructor
    · rw [h1, hmap]
      simp
    · rw [h2, hfc]
      simp only [List.map_cons, List.sum_cons]
      omega

theorem driftStep_spec (env : Env) (st : DriftSt) (sym : Str) (dFile : String)
    (usage migSet : List String)
    (hfiles : env.ord (idxFiles env.idx sym) = dFile :: usage)
    (hmig : (Rng.sample st.rng usage (min (usage.length * 3 / 5) usage.length)).1 = migSet)
    (hf : ∀ p, env.fails p = false)
    (hmnd : migSet.Nodup)
    (hdm : dFile ∉ migSet) :
    (driftStep env st sym).api_migrations =
        st.api_migrations ++
          [(sym, ⟨sym ++ ['V', '2'], dFile, usage.length, migSet.length, migSet⟩)] ∧
    (driftStep env st sym).rng =
        (Rng.sample st.rng usage (min (usage.length * 3 / 5) usage.length)).2 ∧
    (driftStep env st sym).files_changed =
        st.files_changed + 1 +
          migSet.countP (fun p => decide (subWB sym (sym ++ ['V', '2']) (st.fs p) ≠ st.fs p)) ∧
    (∀ p ∈ migSet, (driftStep env st sym).fs p = subWB sym (sym ++ ['V', '2']) (st.fs p)) ∧
    (driftStep env st sym).fs dFile =
        createV2Content (env.idx.langOf dFile) sym (sym ++ ['V', '2']) (st.fs dFile) ∧
    (∀ q, q ∉ migSet → q ≠ dFile → (driftStep env st sym).fs q = st.fs q) := by
  have hstep : driftStep env st sym =
      ⟨(migrateFold env sym (sym ++ ['V', '2']) migSet
          (fsWrite st.fs dFile
            (createV2Content (env.idx.langOf dFile) sym (sym ++ ['V', '2']) (st.fs dFile)))
          (st.files_changed + 1)).1,
        (Rng.sample st.rng usage (min (usage.length * 3 / 5) usage.length)).2,
        (migrateFold env sym (sym ++ ['V', '2']) migSet
          (fsWrite st.fs dFile
            (createV2Content (env.idx.langOf dFile) sym (sym ++ ['V', '2']) (st.fs dFile)))
          (st.files_changed + 1)).2,
        st.api_migrations ++
          [(sym, ⟨sym ++ ['V', '2'], dFile, usage.length, migSet.length, migSet⟩)]⟩ := by
    simp only [driftStep, hfiles]
    simp only [create_v2_definition, hf dFile, Bool.false_eq_true, if_false, if_true]
    simp only [hmig]
  have hframe : ∀ p ∈ migSet,
      fsWrite st.fs dFile
        (createV2Content (env.idx.langOf dFile) sym (sym ++ ['V', '2']) (st.fs dFile)) p =
      st.fs p := by
    intro p hp
    have : p ≠ dFile := fun h => hdm (h ▸ hp)
    simp [fsWrite, this]
  refine ⟨?_, ?_, ?_, ?_, ?_, ?_⟩
  · rw [hstep]
  · rw [hstep]
  · rw [hstep]
    show (migrateFold env sym (sym ++ ['V', '2']) migSet _ (st.files_changed + 1)).2 = _
    rw [migrateFold_count env sym (sym ++ ['V', '2']) hf migSet _ _ hmnd]
    congr 1
    refine List.countP_congr ?_
    intro p hp
    rw [hframe p hp]
  · intro p hp
    rw [hstep]
    show (migrateFold env sym (sym ++ ['V', '2']) migSet _ (st.files_changed + 1)).1 p = _
    rw [migrateFold_mem env sym (sym ++ ['V', '2']) hf migSet _ _ p hmnd hp]
    rw [hframe p hp]
  · rw [hstep]
    show (migrateFold env sym (sym ++ ['V', '2']) migSet _ (st.files_changed + 1)).1 dFile = _
    rw [migrateFold_frame env sym (sym ++ ['V', '2']) migSet _ _ dFile hdm]
    simp [fsWrite]
  · intro q hq hqd
    rw [hstep]
    show (migrateFold env sym (sym ++ ['V', '2']) migSet _ (st.files_changed + 1)).1 q = _
    rw [migrateFold_frame env sym (sym ++ ['V', '2']) migSet _ _ q hq]
    simp [fsWrite, hqd]

/-! ## Claims -/

/-- C7 counterexample: with a present but malformed `repos.yaml`, the
loader raises (`yaml.YAMLError` is not `FileNotFoundError` and is not
caught) instead of returning the hardcoded defaults, so "loading the
configuration never fails" is false. -/
theorem c7_config_malformed_cex :
    load_config ConfigFile.malformed = Except.error "yaml.YAMLError" ∧
    load_config ConfigFile.malformed ≠ Except.ok defaultConfig := by
  exact ⟨rfl, fun h => Except.noConfusion h⟩

/-- C7 (amended): only a *missing* configuration file falls back to the
hardcoded defaults (file_rename_percentage 0.08, symbol_rename_percentage
0.05, api_drift_functions 10, wrapper_layers 8, duplication_directories 2);
a malformed configuration file raises. -/
theorem c7_config_amended :
    load_config ConfigFile.missing = Except.ok defaultConfig ∧
    defaultConfig.file_rename_percentage = 8 / 100 ∧
    defaultConfig.symbol_rename_percentage = 5 / 100 ∧
    defaultConfig.api_drift_functions = 10 ∧
    defaultConfig.wrapper_layers = 8 ∧
    defaultConfig.duplication_directories = 2 ∧
    (∃ msg, load_config ConfigFile.malformed = Except.error msg) := by
  refine ⟨rfl, rfl, rfl, rfl, rfl, rfl, ⟨"yaml.YAMLError", rfl⟩⟩

/-- C6 counterexample: on the empty symbol index the renamer selects
`rng.sample([], min(max(1, 0), 0)) = []`, i.e. 0 symbols, while
`max(1, floor(0 × fraction)) = 1`, so the claimed count formula fails. -/
theorem c6_sample_size_cex :
    (renameSelection ⟨fun _ => Lang.unknown, []⟩ (1 / 2) ⟨0⟩).1.length = 0 ∧
    max 1 (pyInt (((⟨fun _ => Lang.unknown, []⟩ : FileIndexM).symbols_to_files.length : ℚ)
      * (1 / 2))) = 1 ∧
    (0 : ℚ) ≤ 1 / 2 ∧ (1 / 2 : ℚ) ≤ 1 := by
  refine ⟨?_, ?_, by norm_num, by norm_num⟩
  · simp only [renameSelection]
    rw [sample_length]
    simp
  · have h0 : (((⟨fun _ => Lang.unknown, []⟩ : FileIndexM).symbols_to_files.length : ℚ)) = 0 := by
      norm_num
    rw [h0]
    have h1 : pyInt ((0 : ℚ) * (1 / 2)) = 0 := by
      rw [pyInt]
      norm_num
    rw [h1]
    rfl

/-- C6 (amended): the number of selected symbols is
`min(max(1, floor(pool × fraction)), pool)`; it never exceeds the pool
size, and it equals `max(1, floor(pool × fraction))` whenever the index is
non-empty (the claimed formula fails only at the empty index, where the
code selects 0 instead of 1). -/
theorem c6_sample_size_amended (idx : FileIndexM) (percentage : ℚ) (rng : Rng)
    (h0 : 0 ≤ percentage) (h1 : percentage ≤ 1) :
    (renameSelection idx percentage rng).1.length =
      min (max 1 (pyInt ((idx.symbols_to_files.length : ℚ) * percentage)))
        idx.symbols_to_files.length ∧
    (renameSelection idx percentage rng).1.length ≤ idx.symbols_to_files.length ∧
    (idx.symbols_to_files ≠ [] →
      (renameSelection idx percentage rng).1.length =
        max 1 (pyInt ((idx.symbols_to_files.length : ℚ) * percentage))) := by
  have hlen : (idx.symbols_to_files.map (fun e => e.1)).length =
      idx.symbols_to_files.length := List.length_map _ _
  have hmain : (renameSelection idx percentage rng).1.length =
      min (min (max 1 (pyInt ((idx.symbols_to_files.length : ℚ) * percentage)))
        idx.symbols_to_files.length) idx.symbols_to_files.length := by
    rw [renameSelection, sample_length, hlen]
  have hK : pyInt ((idx.symbols_to_files.length : ℚ) * percentage) ≤
      idx.symbols_to_files.length := by
    rw [pyInt]
    have hle : ((idx.symbols_to_files.length : ℚ) * percentage) ≤
        (idx.symbols_to_files.length : ℚ) := by
      calc (idx.symbols_to_files.length : ℚ) * percentage
          ≤ (idx.symbols_to_files.length : ℚ) * 1 := by
            exact mul_le_mul_of_nonneg_left h1 (Nat.cast_nonneg _)
        _ = (idx.symbols_to_files.length : ℚ) := mul_one _
    have hfl := Int.floor_le_floor hle
    rw [Int.floor_natCast] at hfl
    omega
  refine ⟨?_, ?_, ?_⟩
  · rw [hmain]
    omega
  · rw [hmain]
    omega
  · intro hne
    have hpos : 0 < idx.symbols_to_files.length := List.length_pos.mpr hne
    rw [hmain]
    omega

/-- C3 counterexample: a file directly inside an excluded directory is
indexed even though its path contains the excluded substring, because the
exclusion checks the walk root (which lacks the trailing slash) and the
filename separately, never the joined path. -/
theorem c3_exclusion_cex :
    "repo/vendor/a.go" ∈
      build_index_paths [[("repo", []), ("repo/vendor", ["a.go"])]] ∧
    containsSub "vendor/".toList "repo/vendor/a.go".toList = true := by
  refine ⟨by decide, by decide⟩

/-- C3 (amended): every path in the file index decomposes as
`walkroot ++ "/" ++ filename` where no excluded pattern occurs in the walk
root, no excluded pattern occurs in the filename, and the filename has a
recognized extension; a path whose only excluded-substring occurrence
spans the root/filename junction (a file directly inside an excluded
directory) can still be indexed. -/
theorem c3_exclusion_amended (walks : List (List (String × List String))) (p : String)
    (hp : p ∈ build_index_paths walks) :
    ∃ root fn, p = root ++ "/" ++ fn ∧
      (∀ pat ∈ excludePatterns, containsSub pat root.toList = false) ∧
      (∀ pat ∈ excludePatterns, containsSub pat fn.toList = false) ∧
      (∃ ext ∈ extensionsList, endsWithB ext fn.toList = true) := by
  rw [build_index_paths, List.mem_flatMap] at hp
  obtain ⟨walk, _, hpw⟩ := hp
  rw [find_source_files, List.mem_flatMap] at hpw
  obtain ⟨e, _, hpe⟩ := hpw
  by_cases hroot : excludePatterns.any (fun pat => containsSub pat e.1.toList) = true
  · rw [if_pos hroot] at hpe
    exact absurd hpe (List.not_mem_nil p)
  · rw [if_neg hroot] at hpe
    obtain ⟨fn, hfn, rfl⟩ := List.mem_map.mp hpe
    have hfn2 := List.mem_filter.mp hfn
    have hcond := hfn2.2
    rw [Bool.and_eq_true] at hcond
    refine ⟨e.1, fn, rfl, ?_, ?_, ?_⟩
    · intro pat hpat
      have hfalse : excludePatterns.any (fun pat => containsSub pat e.1.toList) = false := by
        simpa using hroot
      simpa using (List.any_eq_false.mp hfalse) pat hpat
    · intro pat hpat
      have hnot := hcond.2
      rw [Bool.not_eq_true'] at hnot
      simpa using (List.any_eq_false.mp hnot) pat hpat
    · have := hcond.1
      rw [List.any_eq_true] at this
      obtain ⟨ext, hext, hends⟩ := this
      exact ⟨ext, hext, hends⟩

/-- Witness for C3 (amended), at a concrete two-level walk. -/
theorem c3_exclusion_amended_witness :
    ("repo/src/a.go" ∈ build_index_paths [[("repo", []), ("repo/src", ["a.go"])]]) ∧
    (∃ root fn, "repo/src/a.go" = root ++ "/" ++ fn ∧
      (∀ pat ∈ excludePatterns, containsSub pat root.toList = false) ∧
      (∀ pat ∈ excludePatterns, containsSub pat fn.toList = false) ∧
      (∃ ext ∈ extensionsList, endsWithB ext fn.toList = true)) :=
  ⟨by decide, c3_exclusion_amended [[("repo", []), ("repo/src", ["a.go"])]] "repo/src/a.go"
    (by decide)⟩

theorem pyInt_cast_mul_one (n : Nat) : pyInt ((n : ℚ) * 1) = n := by
  rw [pyInt, mul_one, Int.floor_natCast, Int.toNat_natCast]

theorem sample_singleton {α : Type} (rng : Rng) (x : α) :
    Rng.sample rng [x] 1 = ([x], ⟨rngStep rng.st⟩) := by
  simp [Rng.sample, sampleAux, randBelow, rngNext, Nat.mod_one]

/-- Witness for C6 (amended) at a one-symbol index and fraction 1/2. -/
theorem c6_sample_size_amended_witness :
    (0 : ℚ) ≤ 1 / 2 ∧ (1 / 2 : ℚ) ≤ 1 ∧
    (renameSelection ⟨fun _ => Lang.unknown, [("Alpha".toList, [])]⟩ (1 / 2) ⟨0⟩).1.length =
      1 := by
  refine ⟨by norm_num, by norm_num, ?_⟩
  have h := (c6_sample_size_amended ⟨fun _ => Lang.unknown, [("Alpha".toList, [])]⟩ (1 / 2) ⟨0⟩
    (by norm_num) (by norm_num)).2.2 (List.cons_ne_nil _ _)
  rw [h]
  have h1 : pyInt
      ((((⟨fun _ => Lang.unknown, [("Alpha".toList, [])]⟩ : FileIndexM).symbols_to_files.length :
        ℚ)) * (1 / 2)) = 0 := by
    rw [pyInt]
    norm_num
  rw [h1]
  exact max_eq_left (Nat.zero_le 1)

/-- C8: the drift candidate pool is exactly the set of symbol-index keys
with length > 3 and an uppercase leading character, and the selection is
one seeded sample draw of exactly `min(symbol_count, pool_size)` symbols
from that pool. -/
theorem c8_drift_pool_and_count :
    (∀ (idx : FileIndexM) (s : Str),
      s ∈ driftPool idx ↔
        s ∈ idx.symbols_to_files.map (fun e => e.1) ∧
          3 < s.length ∧ firstUpper s = true) ∧
    (∀ (idx : FileIndexM) (cnt : Nat) (rng : Rng),
      (driftSelection idx cnt rng).1.length = min cnt (driftPool idx).length ∧
      ∀ s, s ∈ (driftSelection idx cnt rng).1 → s ∈ driftPool idx) := by
  constructor
  · intro idx s
    rw [driftPool, List.mem_filter]
    simp only [Bool.and_eq_true, decide_eq_true_iff]
  · intro idx cnt rng
    constructor
    · rw [driftSelection, sample_length]
      omega
    · intro s hs
      exact sample_subset _ _ _ _ hs

/-- Witness for C8 at a two-key index in which only one key looks like a
public API. -/
theorem c8_drift_pool_and_count_witness :
    ("Alpha".toList ∈
      driftPool ⟨fun _ => Lang.go, [("Alpha".toList, ["a.go"]), ("ab".toList, ["a.go"])]⟩) ∧
    (driftSelection ⟨fun _ => Lang.go, [("Alpha".toList, ["a.go"]), ("ab".toList, ["a.go"])]⟩
      5 ⟨0⟩).1.length = 1 := by
  constructor
  · exact (c8_drift_pool_and_count.1 _ _).mpr ⟨by decide, by decide, by decide⟩
  · have h := (c8_drift_pool_and_count.2
      ⟨fun _ => Lang.go, [("Alpha".toList, ["a.go"]), ("ab".toList, ["a.go"])]⟩ 5 ⟨0⟩).1
    rw [h]
    decide

/-- C4 (amended): a write failure on one file is logged and skipped
without being recorded: the error list stays empty (the only appending
site is the unreachable per-symbol handler), so `success`, which is
`len(errors) == 0`, stays true even when writes fail; processing continues
through the symbol's remaining files and subsequent symbols
(`files_changed` sums the successful rewrites of every sampled symbol),
and `rename_map` is populated for every sampled symbol regardless. -/
theorem c4_write_failure_amended (env : Env) (percentage : ℚ) (fs : FS) (rng : Rng) :
    (rename_symbols env percentage fs rng).errors = [] ∧
    (rename_symbols env percentage fs rng).success = true ∧
    ((rename_symbols env percentage fs rng).success = true ↔
      (rename_symbols env percentage fs rng).errors = []) ∧
    (rename_symbols env percentage fs rng).rename_map.map (fun e => e.1) =
      (renameSelection env.idx percentage rng).1 ∧
    (rename_symbols env percentage fs rng).files_changed =
      ((renameSelection env.idx percentage rng).1.map (fun s =>
        (env.ord (idxFiles env.idx s)).countP (fun p => !env.fails p))).sum := by
  have h := renameFold_spec env (renameSelection env.idx percentage rng).1
    ⟨fs, (renameSelection env.idx percentage rng).2, 0, []⟩
  refine ⟨rfl, rfl, ⟨fun _ => rfl, fun _ => rfl⟩, ?_, ?_⟩
  · show ((renameSelection env.idx percentage rng).1.foldl (renameStep env)
      ⟨fs, (renameSelection env.idx percentage rng).2, 0, []⟩).rename_map.map (fun e => e.1) = _
    rw [h.1]
    simp
  · show ((renameSelection env.idx percentage rng).1.foldl (renameStep env)
      ⟨fs, (renameSelection env.idx percentage rng).2, 0, []⟩).files_changed = _
    rw [h.2]
    simp

def c4Env : Env :=
  ⟨⟨fun _ => Lang.unknown, [("Alpha".toList, ["a.go", "b.go"])]⟩, id, fun p => p == "a.go"⟩

def c4Fs : FS := fun _ => "x = Alpha".toList

/-- C4 counterexample: the write of `a.go` fails, yet the error list stays
empty (so the claimed "appended to the result's error list" is false),
`success` stays true, and only the surviving rewrite of `b.go` is
counted. -/
theorem c4_write_failure_cex :
    c4Env.fails "a.go" = true ∧
    c4Env.ord (idxFiles c4Env.idx "Alpha".toList) = ["a.go", "b.go"] ∧
    (rename_symbols c4Env 1 c4Fs ⟨0⟩).errors = [] ∧
    (rename_symbols c4Env 1 c4Fs ⟨0⟩).success = true ∧
    (rename_symbols c4Env 1 c4Fs ⟨0⟩).files_changed = 1 := by
  refine ⟨by decide, by decide, rfl, rfl, ?_⟩
  simp only [rename_symbols, renameSelection]
  rw [pyInt_cast_mul_one]
  decide

def c9Env : Env :=
  ⟨⟨fun _ => Lang.unknown, [("Alpha".toList, ["f.go"]), ("Beta".toList, ["f.go"])]⟩,
    id, fun _ => false⟩

def c9Fs : FS := fun _ => "Alpha Beta".toList

/-- C9: `files_changed` is the number of successful per-symbol file
rewrites (one increment per sampled symbol per file in its set), not the
number of distinct files changed; concretely, with two sampled symbols
declared in the same single file, `files_changed` is 2 while only one
distinct on-disk file was mutated. -/
theorem c9_files_changed_multiplicity :
    (∀ (env : Env) (percentage : ℚ) (fs : FS) (rng : Rng),
      (rename_symbols env percentage fs rng).files_changed =
        ((renameSelection env.idx percentage rng).1.map (fun s =>
          (env.ord (idxFiles env.idx s)).countP (fun p => !env.fails p))).sum) ∧
    (rename_symbols c9Env 1 c9Fs ⟨0⟩).files_changed = 2 ∧
    (["f.go"].countP (fun p =>
      decide ((rename_symbols c9Env 1 c9Fs ⟨0⟩).fs p ≠ c9Fs p)) = 1) := by
  refine ⟨?_, ?_, ?_⟩
  · intro env percentage fs rng
    have h := renameFold_spec env (renameSelection env.idx percentage rng).1
      ⟨fs, (renameSelection env.idx percentage rng).2, 0, []⟩
    show ((renameSelection env.idx percentage rng).1.foldl (renameStep env)
      ⟨fs, (renameSelection env.idx percentage rng).2, 0, []⟩).files_changed = _
    rw [h.2]
    simp
  · have hfix : pyInt
        (((List.map (fun e => e.1) c9Env.idx.symbols_to_files).length : ℚ) * 1) = 2 := by
      rw [pyInt_cast_mul_one]
      decide
    simp only [rename_symbols, renameSelection, hfix]
    decide
  · have hfix : pyInt
        (((List.map (fun e => e.1) c9Env.idx.symbols_to_files).length : ℚ) * 1) = 2 := by
      rw [pyInt_cast_mul_one]
      decide
    simp only [rename_symbols, renameSelection, hfix]
    decide

/-- C2 (amended): when the structural match fails (the computed v2 content
equals the original content), the symbol is *not* a silent no-op: the
definition file is still rewritten (with identical bytes), files_changed
is still incremented for it, the word-boundary migration of the sampled
60% usage subset still proceeds, and a ledger entry is still recorded;
processing of the remaining symbols continues (the step function is
total). -/
theorem c2_match_failure_amended (env : Env) (st : DriftSt) (sym : Str) (dFile : String)
    (usage migSet : List String)
    (hfiles : env.ord (idxFiles env.idx sym) = dFile :: usage)
    (hmig : (Rng.sample st.rng usage (min (usage.length * 3 / 5) usage.length)).1 = migSet)
    (hf : ∀ p, env.fails p = false)
    (hmnd : migSet.Nodup)
    (hdm : dFile ∉ migSet)
    (hmatch : createV2Content (env.idx.langOf dFile) sym (sym ++ ['V', '2']) (st.fs dFile) =
      st.fs dFile) :
    (driftStep env st sym).fs dFile = st.fs dFile ∧
    (driftStep env st sym).files_changed =
      st.files_changed + 1 +
        migSet.countP (fun p => decide (subWB sym (sym ++ ['V', '2']) (st.fs p) ≠ st.fs p)) ∧
    (∀ p ∈ migSet, (driftStep env st sym).fs p = subWB sym (sym ++ ['V', '2']) (st.fs p)) ∧
    (driftStep env st sym).api_migrations =
      st.api_migrations ++
        [(sym, ⟨sym ++ ['V', '2'], dFile, usage.length, migSet.length, migSet⟩)] := by
  obtain ⟨hl, _, hfc, hmem, hdf, _⟩ :=
    driftStep_spec env st sym dFile usage migSet hfiles hmig hf hmnd hdm
  exact ⟨by rw [hdf, hmatch], hfc, hmem, hl⟩

def c2Env : Env :=
  ⟨⟨fun _ => Lang.go, [("Proc".toList, ["d.go", "u.go"])]⟩, id, fun _ => false⟩

def c2Fs : FS := fun p =>
  if p = "d.go" then "type Proc struct \x7b\x7d".toList else "y = Proc(2)".toList

def c2St : DriftSt := ⟨c2Fs, ⟨0⟩, 0, []⟩

/-- C2 counterexample: `Proc` is selected and its Go structural match fails
(the definition file declares it as a type, so the `func Proc` pattern has
no match and the content computed by `_create_v2_definition` is unchanged),
yet the run still increments `files_changed` for the definition file and
still records a ledger entry — the claimed per-symbol no-op is false. -/
theorem c2_match_failure_not_noop_cex :
    (createV2Content (c2Env.idx.langOf "d.go") "Proc".toList ("Proc".toList ++ ['V', '2'])
      (c2Fs "d.go") = c2Fs "d.go") ∧
    (apply_api_drift c2Env 1 c2Fs ⟨0⟩).files_changed = 1 ∧
    (apply_api_drift c2Env 1 c2Fs ⟨0⟩).api_migrations =
      [("Proc".toList, ⟨"Proc".toList ++ ['V', '2'], "d.go", 1, 0, []⟩)] := by
  refine ⟨by decide, by decide, by decide⟩

/-- Witness for C2 (amended) at the concrete type-declared symbol. -/
theorem c2_match_failure_amended_witness :
    (c2Env.ord (idxFiles c2Env.idx "Proc".toList) = "d.go" :: ["u.go"]) ∧
    ((Rng.sample c2St.rng ["u.go"] (min (["u.go"].length * 3 / 5) ["u.go"].length)).1 =
      ([] : List String)) ∧
    (createV2Content (c2Env.idx.langOf "d.go") "Proc".toList ("Proc".toList ++ ['V', '2'])
      (c2St.fs "d.go") = c2St.fs "d.go") ∧
    ((driftStep c2Env c2St "Proc".toList).fs "d.go" = c2St.fs "d.go" ∧
      (driftStep c2Env c2St "Proc".toList).files_changed = 1 ∧
      (driftStep c2Env c2St "Proc".toList).api_migrations =
        [("Proc".toList, ⟨"Proc".toList ++ ['V', '2'], "d.go", 1, 0, []⟩)]) := by
  have hfiles : c2Env.ord (idxFiles c2Env.idx "Proc".toList) = "d.go" :: ["u.go"] := by decide
  have hmig : (Rng.sample c2St.rng ["u.go"]
      (min (["u.go"].length * 3 / 5) ["u.go"].length)).1 = ([] : List String) := by decide
  have hmatch : createV2Content (c2Env.idx.langOf "d.go") "Proc".toList
      ("Proc".toList ++ ['V', '2']) (c2St.fs "d.go") = c2St.fs "d.go" := by decide
  obtain ⟨h1, h2, _, h4⟩ := c2_match_failure_amended c2Env c2St "Proc".toList "d.go"
    ["u.go"] [] hfiles hmig (fun _ => rfl) List.nodup_nil (List.not_mem_nil _) hmatch
  refine ⟨hfiles, hmig, hmatch, h1, ?_, ?_⟩
  · rw [h2]
    decide
  · rw [h4]
    rfl

/-- C10: a file in the migrated subset with no word-boundary occurrence of
the old name is left unwritten and byte-identical by `_migrate_callsite`
(which returns `False`), contributes nothing to `files_changed`, and yet
appears in the ledger entry's `migrated_files` and is counted in its
`migrated_callsites` (which is `len(files_to_migrate)`, not the number of
files actually rewritten). -/
theorem c10_no_occurrence_migration (env : Env) (st : DriftSt) (sym : Str)
    (dFile F : String) (usage migSet : List String)
    (hfiles : env.ord (idxFiles env.idx sym) = dFile :: usage)
    (hmig : (Rng.sample st.rng usage (min (usage.length * 3 / 5) usage.length)).1 = migSet)
    (hf : ∀ p, env.fails p = false)
    (hmnd : migSet.Nodup)
    (hdm : dFile ∉ migSet)
    (hF : F ∈ migSet)
    (hocc : wbCount sym (st.fs F) = 0) :
    (driftStep env st sym).fs F = st.fs F ∧
    (decide (subWB sym (sym ++ ['V', '2']) (st.fs F) ≠ st.fs F) = false) ∧
    (driftStep env st sym).files_changed =
      st.files_changed + 1 +
        migSet.countP (fun p => decide (subWB sym (sym ++ ['V', '2']) (st.fs p) ≠ st.fs p)) ∧
    (driftStep env st sym).api_migrations =
      st.api_migrations ++
        [(sym, ⟨sym ++ ['V', '2'], dFile, usage.length, migSet.length, migSet⟩)] := by
  obtain ⟨hl, _, hfc, hmem, _, _⟩ :=
    driftStep_spec env st sym dFile usage migSet hfiles hmig hf hmnd hdm
  have hunch : subWB sym (sym ++ ['V', '2']) (st.fs F) = st.fs F :=
    subWB_eq_of_wbCount_zero _ _ _ hocc
  refine ⟨?_, ?_, hfc, hl⟩
  · rw [hmem F hF, hunch]
  · simp [hunch]

def c10Env : Env :=
  ⟨⟨fun _ => Lang.go, [("Gamma".toList, ["d.go", "u1.go", "u2.go"])]⟩, id, fun _ => false⟩

def c10Fs : FS := fun p =>
  if p = "d.go" then "func Gamma() \x7b\x7d".toList else "nothing here".toList

def c10St : DriftSt := ⟨c10Fs, ⟨0⟩, 0, []⟩

/-- Witness for C10: `u1.go` is sampled into the migrated subset, contains
no occurrence of `Gamma`, stays byte-identical, is not counted in
`files_changed` (only the definition-file write is), yet the ledger lists
it as migrated with `migrated_callsites = 1`. -/
theorem c10_no_occurrence_migration_witness :
    (c10Env.ord (idxFiles c10Env.idx "Gamma".toList) = "d.go" :: ["u1.go", "u2.go"]) ∧
    ((Rng.sample c10St.rng ["u1.go", "u2.go"]
        (min (["u1.go", "u2.go"].length * 3 / 5) ["u1.go", "u2.go"].length)).1 = ["u1.go"]) ∧
    wbCount "Gamma".toList (c10St.fs "u1.go") = 0 ∧
    ((driftStep c10Env c10St "Gamma".toList).fs "u1.go" = c10St.fs "u1.go" ∧
      (driftStep c10Env c10St "Gamma".toList).files_changed = 1 ∧
      (driftStep c10Env c10St "Gamma".toList).api_migrations =
        [("Gamma".toList, ⟨"Gamma".toList ++ ['V', '2'], "d.go", 2, 1, ["u1.go"]⟩)]) := by
  have hfiles : c10Env.ord (idxFiles c10Env.idx "Gamma".toList) =
      "d.go" :: ["u1.go", "u2.go"] := by decide
  have hmig : (Rng.sample c10St.rng ["u1.go", "u2.go"]
      (min (["u1.go", "u2.go"].length * 3 / 5) ["u1.go", "u2.go"].length)).1 = ["u1.go"] := by
    decide
  have hocc : wbCount "Gamma".toList (c10St.fs "u1.go") = 0 := by decide
  obtain ⟨h1, _, hfc, hl⟩ := c10_no_occurrence_migration c10Env c10St "Gamma".toList
    "d.go" "u1.go" ["u1.go", "u2.go"] ["u1.go"] hfiles hmig (fun _ => rfl)
    (by decide) (by decide) (by decide) hocc
  refine ⟨hfiles, hmig, hocc, h1, ?_, ?_⟩
  · rw [hfc]
    decide
  · rw [hl]
    rfl

/-- C5 (amended): for a drift run in which exactly one symbol is selected
(and whose enumerated file list is duplicate-free): the migrated subset
has exactly `floor(0.6 × U)` files; every migrated file that contained a
word-boundary occurrence of the old name ends the run with zero
word-boundary occurrences of the old name and at least one of the new
name; a migrated file without such an occurrence is left byte-identical;
and every non-migrated usage file is byte-identical to its state before
the run.  (With two or more selected symbols a non-migrated usage file of
one symbol can be mutated by another symbol's step, and a migrated file
without occurrences of the old name never receives the new name — see the
counterexample.) -/
theorem c5_drift_proportionality_amended (env : Env) (cnt : Nat) (fs : FS) (rng : Rng)
    (sym : Str) (dFile : String) (usage migSet : List String)
    (hsel : (driftSelection env.idx cnt rng).1 = [sym])
    (hfiles : env.ord (idxFiles env.idx sym) = dFile :: usage)
    (hmig : (Rng.sample (driftSelection env.idx cnt rng).2 usage
        (min (usage.length * 3 / 5) usage.length)).1 = migSet)
    (hf : ∀ p, env.fails p = false)
    (hmnd : migSet.Nodup)
    (hdu : dFile ∉ usage)
    (hw : sym ≠ [] ∧ ∀ c ∈ sym, isWordChar c = true) :
    migSet.length = usage.length * 3 / 5 ∧
    (∀ p ∈ migSet, 0 < wbCount sym (fs p) →
      wbCount sym ((apply_api_drift env cnt fs rng).fs p) = 0 ∧
      0 < wbCount (sym ++ ['V', '2']) ((apply_api_drift env cnt fs rng).fs p)) ∧
    (∀ p ∈ migSet, wbCount sym (fs p) = 0 →
      (apply_api_drift env cnt fs rng).fs p = fs p) ∧
    (∀ p ∈ usage, p ∉ migSet → (apply_api_drift env cnt fs rng).fs p = fs p) := by
  have hsub : ∀ x, x ∈ migSet → x ∈ usage := by
    intro x hx
    rw [← hmig] at hx
    exact sample_subset _ _ _ _ hx
  have hdm : dFile ∉ migSet := fun h => hdu (hsub _ h)
  have hrun : (apply_api_drift env cnt fs rng).fs =
      (driftStep env ⟨fs, (driftSelection env.idx cnt rng).2, 0, []⟩ sym).fs := by
    simp only [apply_api_drift, hsel, List.foldl_cons, List.foldl_nil]
  obtain ⟨_, _, _, hmem, _, hother⟩ :=
    driftStep_spec env ⟨fs, (driftSelection env.idx cnt rng).2, 0, []⟩ sym dFile usage migSet
      hfiles hmig hf hmnd hdm
  have hnw : (sym ++ ['V', '2']) ≠ [] ∧ ∀ c ∈ sym ++ ['V', '2'], isWordChar c = true := by
    refine ⟨by simp, ?_⟩
    intro c hc
    rcases List.mem_append.mp hc with h | h
    · exact hw.2 c h
    · rcases List.mem_cons.mp h with rfl | h2
      · decide
      · rcases List.mem_cons.mp h2 with rfl | h3
        · decide
        · exact absurd h3 (List.not_mem_nil c)
  have hne : (sym ++ ['V', '2']) ≠ sym := by
    intro h
    have := congrArg List.length h
    simp at this
  refine ⟨?_, ?_, ?_, ?_⟩
  · rw [← hmig, sample_length]
    omega
  · intro p hp hocc
    rw [hrun, hmem p hp]
    constructor
    · exact wbCount_subWB_self sym (sym ++ ['V', '2']) (fs p) hw hnw hne
    · exact lt_of_lt_of_le hocc (wbCount_subWB_new sym (sym ++ ['V', '2']) (fs p) hw hnw)
  · intro p hp hocc
    rw [hrun, hmem p hp]
    exact subWB_eq_of_wbCount_zero _ _ _ hocc
  · intro p hp hpm
    have hpd : p ≠ dFile := fun h => hdu (h ▸ hp)
    rw [hrun]
    exact hother p hpm hpd

def c5Env : Env :=
  ⟨⟨fun _ => Lang.go, [("Delta".toList, ["d.go", "u1.go", "u2.go"])]⟩, id, fun _ => false⟩

def c5Fs : FS := fun p =>
  if p = "d.go" then "func Delta() \x7b\x7d".toList
  else if p = "u1.go" then "a = Delta(1)".toList
  else "b = Delta(2)".toList

/-- Witness for C5 (amended): a single-symbol run over three files; the
sampled migrated subset is exactly one of the two usage files, it is fully
rewritten to the new name, and the other usage file is byte-identical. -/
theorem c5_drift_proportionality_amended_witness :
    ((driftSelection c5Env.idx 1 ⟨0⟩).1 = ["Delta".toList]) ∧
    (c5Env.ord (idxFiles c5Env.idx "Delta".toList) = "d.go" :: ["u1.go", "u2.go"]) ∧
    ((Rng.sample (driftSelection c5Env.idx 1 ⟨0⟩).2 ["u1.go", "u2.go"]
        (min (["u1.go", "u2.go"].length * 3 / 5) ["u1.go", "u2.go"].length)).1 = ["u2.go"]) ∧
    0 < wbCount "Delta".toList (c5Fs "u2.go") ∧
    (["u2.go"].length = ["u1.go", "u2.go"].length * 3 / 5 ∧
      wbCount "Delta".toList ((apply_api_drift c5Env 1 c5Fs ⟨0⟩).fs "u2.go") = 0 ∧
      0 < wbCount ("Delta".toList ++ ['V', '2'])
        ((apply_api_drift c5Env 1 c5Fs ⟨0⟩).fs "u2.go") ∧
      (apply_api_drift c5Env 1 c5Fs ⟨0⟩).fs "u1.go" = c5Fs "u1.go") := by
  have hsel : (driftSelection c5Env.idx 1 ⟨0⟩).1 = ["Delta".toList] := by decide
  have hfiles : c5Env.ord (idxFiles c5Env.idx "Delta".toList) =
      "d.go" :: ["u1.go", "u2.go"] := by decide
  have hmig : (Rng.sample (driftSelection c5Env.idx 1 ⟨0⟩).2 ["u1.go", "u2.go"]
      (min (["u1.go", "u2.go"].length * 3 / 5) ["u1.go", "u2.go"].length)).1 = ["u2.go"] := by
    decide
  have hocc : 0 < wbCount "Delta".toList (c5Fs "u2.go") := by decide
  obtain ⟨hlen, hmig2, _, hnm⟩ := c5_drift_proportionality_amended c5Env 1 c5Fs ⟨0⟩
    "Delta".toList "d.go" ["u1.go", "u2.go"] ["u2.go"] hsel hfiles hmig (fun _ => rfl)
    (by decide) (by decide) ⟨by decide, by decide⟩
  refine ⟨hsel, hfiles, hmig, hocc, hlen, ?_, ?_, ?_⟩
  · exact (hmig2 "u2.go" (by decide) hocc).1
  · exact (hmig2 "u2.go" (by decide) hocc).2
  · exact hnm "u1.go" (by decide) (by decide)

def c5xEnv : Env :=
  ⟨⟨fun _ => Lang.go, [("Alpha".toList, ["da.go", "f.go"]), ("Beta".toList, ["f.go"])]⟩,
    id, fun _ => false⟩

def c5xFs : FS := fun p =>
  if p = "da.go" then "func Alpha() \x7b\x7d".toList
  else "func Beta() \x7b Alpha() \x7d".toList

def c5yEnv : Env :=
  ⟨⟨fun _ => Lang.go, [("Delta".toList, ["d.go", "u1.go", "u2.go"])]⟩, id, fun _ => false⟩

def c5yFs : FS := fun p =>
  if p = "d.go" then "func Delta() \x7b\x7d".toList else "no calls".toList

/-- C5 counterexample, two scenarios.  (1) With two selected symbols,
`f.go` is a non-migrated usage file of `Alpha` (U = 1, migrated count 0,
as its ledger entry shows) but is also `Beta`'s definition file, so after
the run it is not byte-identical, refuting "every non-migrated usage file
is byte-identical to its state before the run".  (2) With one selected
symbol, the migrated file `u2.go` contains no occurrence of the old name,
so after the run it contains zero occurrences of the new name, refuting
"every migrated file contains at least one occurrence of the new name". -/
theorem c5_drift_proportionality_cex :
    ((apply_api_drift c5xEnv 2 c5xFs ⟨0⟩).api_migrations.lookup "Alpha".toList =
        some ⟨"Alpha".toList ++ ['V', '2'], "da.go", 1, 0, []⟩ ∧
      (apply_api_drift c5xEnv 2 c5xFs ⟨0⟩).fs "f.go" ≠ c5xFs "f.go") ∧
    ((apply_api_drift c5yEnv 1 c5yFs ⟨0⟩).api_migrations =
        [("Delta".toList, ⟨"Delta".toList ++ ['V', '2'], "d.go", 2, 1, ["u2.go"]⟩)] ∧
      wbCount ("Delta".toList ++ ['V', '2'])
        ((apply_api_drift c5yEnv 1 c5yFs ⟨0⟩).fs "u2.go") = 0 ∧
      (apply_api_drift c5yEnv 1 c5yFs ⟨0⟩).fs "u2.go" = c5yFs "u2.go") := by
  exact ⟨⟨by decide, by decide⟩, by decide, by decide, by decide⟩

def c1Idx : FileIndexM := ⟨fun _ => Lang.go, [("Process".toList, ["a.go", "b.go"])]⟩

def c1Fs : FS := fun p =>
  if p = "a.go" then "func Process() \x7b\x7d".toList else "x = Process()".toList

/-- C1: the engine is not deterministic across independent runs.  The
drift simulator takes `list(set)` of a symbol's file set; the enumeration
order of a set of strings depends on per-process hash randomization, so
two independent processes with the same seed and the same corpus can
enumerate `Process`'s file set as [a.go, b.go] and as [b.go, a.go] — both
orders of the same set — and then record different definition files (and
migrate different callsite subsets), producing different ledgers. -/
theorem c1_drift_depends_on_set_order :
    (List.reverse ["a.go", "b.go"]).Perm ["a.go", "b.go"] ∧
    (apply_api_drift ⟨c1Idx, id, fun _ => false⟩ 1 c1Fs ⟨0⟩).api_migrations ≠
      (apply_api_drift ⟨c1Idx, List.reverse, fun _ => false⟩ 1 c1Fs ⟨0⟩).api_migrations := by
  exact ⟨by decide, by decide⟩

/-- Witness for C4 (amended) at the failing-write fixture. -/
theorem c4_write_failure_amended_witness :
    (rename_symbols c4Env 1 c4Fs ⟨0⟩).errors = [] ∧
    ((rename_symbols c4Env 1 c4Fs ⟨0⟩).success = true ↔
      (rename_symbols c4Env 1 c4Fs ⟨0⟩).errors = []) :=
  ⟨(c4_write_failure_amended c4Env 1 c4Fs ⟨0⟩).1,
    (c4_write_failure_amended c4Env 1 c4Fs ⟨0⟩).2.2.1⟩

/-- Witness for C9 at the shared-file fixture. -/
theorem c9_files_changed_multiplicity_witness :
    (rename_symbols c9Env 1 c9Fs ⟨0⟩).files_changed =
      ((renameSelection c9Env.idx 1 ⟨0⟩).1.map (fun s =>
        (c9Env.ord (idxFiles c9Env.idx s)).countP (fun p => !c9Env.fails p))).sum ∧
    (rename_symbols c9Env 1 c9Fs ⟨0⟩).files_changed = 2 :=
  ⟨c9_files_changed_multiplicity.1 c9Env 1 c9Fs ⟨0⟩, c9_files_changed_multiplicity.2.1⟩
